import Mathlib

/-!
Shallow embedding of `src/solve/Unit.h` (the Nful units library).

Modelling conventions:
* `std::ratio<N,D>` is modelled by `Rat`: like `std::ratio`, a `Rat` stores a
  fraction in reduced form with a positive denominator, and rational
  multiplication reduces at every step.
* Floating-point representations are modelled exactly by `Rat`; integral
  representations by `Int` with C++ truncated division (`Int.tdiv`).
* The `enable_if` gate on the integral-from-integral converting constructor is
  a compile-time rejection in C++; it is modelled by `Except`, following the
  spec's runtime-checked reading (`LossyIntegerConversion`).
* C++ compile-time dimension equality constraints (the `Dim` `operator+` used
  through `AddType`) are recorded as hypotheses on the theorems.
-/

namespace Nful

/-- Exponent triple, from `struct Dim` (Unit.h lines 29-34). -/
structure Dim where
  d1 : Int
  d2 : Int
  d3 : Int
deriving DecidableEq, Repr

/-- `operator*(Dim, Dim)` (lines 36-40): component-wise sum of exponents. -/
def Dim.mul (lhs rhs : Dim) : Dim :=
  ⟨lhs.d1 + rhs.d1, lhs.d2 + rhs.d2, lhs.d3 + rhs.d3⟩

/-- `operator/(Dim, Dim)` (lines 45-49): component-wise difference of exponents. -/
def Dim.div (lhs rhs : Dim) : Dim :=
  ⟨lhs.d1 - rhs.d1, lhs.d2 - rhs.d2, lhs.d3 - rhs.d3⟩

/-- `operator+(Dim, Dim)` (lines 51-55): only defined in C++ when both
dimensions are the same type `Dim<D1,D2,D3>`; it returns that dimension.
The equality of the two arguments is a compile-time constraint, carried as a
hypothesis by the theorems that use this operation. -/
def Dim.add (lhs _rhs : Dim) : Dim := lhs

/-- `struct Base` (lines 58-65): a dimension plus one rational ratio per axis. -/
structure Base where
  dim : Dim
  r1 : Rat
  r2 : Rat
  r3 : Rat
deriving DecidableEq, Repr

/-- C++ `%` on `int64_t`: truncated remainder. -/
def cppMod (a b : Int) : Int := Int.tmod a b

/-- C++ `/` on `int64_t`: truncated division. -/
def cppDiv (a b : Int) : Int := Int.tdiv a b

/-- `IsMultiple` (lines 68-71): per axis, `(B1.ri.num * B2.ri.den) % (B2.ri.num * B1.ri.den) == 0`. -/
def IsMultiple (B1 B2 : Base) : Bool :=
  cppMod (B1.r1.num * (B2.r1.den : Int)) (B2.r1.num * (B1.r1.den : Int)) == 0 &&
  cppMod (B1.r2.num * (B2.r2.den : Int)) (B2.r2.num * (B1.r2.den : Int)) == 0 &&
  cppMod (B1.r3.num * (B2.r3.den : Int)) (B2.r3.num * (B1.r3.den : Int)) == 0

/-- `ipow` (lines 76-78): exponentiation by squaring,
`exp < 1 ? result : ipow(base*base, exp/2, (exp % 2) ? result*base : result)`.
The C++ recursion halves `exp`; the `fuel` argument (any bound above the
recursion depth; `ipow` below passes `exp.toNat + 1`) makes the same recursion
structural so that it reduces inside the kernel. -/
def ipowF : Nat → Int → Int → Int → Int
  | 0, _, _, result => result
  | fuel + 1, base, exp, result =>
    if exp < 1 then result
    else ipowF fuel (base * base) (exp / 2) (if exp % 2 = 0 then result else result * base)

/-- `ipow(base, exp, result = 1)` from Unit.h lines 76-78. -/
def ipow (base exp result : Int) : Int := ipowF (exp.toNat + 1) base exp result

/-- `iabs` (lines 80-82): `i >= 0 ? i : -i`. -/
def iabs (i : Int) : Int := if 0 ≤ i then i else -i

/-- `dividend` (lines 86-89): `exp == 0 ? 1 : ipow(a, iabs(exp))`. -/
def dividend (a : Int) (exp : Int) : Int :=
  if exp = 0 then 1 else ipow a (iabs exp) 1

/-- `divisor` (lines 91-94): `exp == 0 ? 1 : ipow(exp > 0 ? a : b, iabs(exp))`. -/
def divisor (a b : Int) (exp : Int) : Int :=
  if exp = 0 then 1 else ipow (if 0 < exp then a else b) (iabs exp) 1

/-- The rational value of `std::ratio<n, d>`. -/
def ratioVal (n d : Int) : Rat := (n : Rat) / (d : Rat)

/-- `ConversionRatio<R1, R, exp>` (lines 96-98):
`ratio_multiply<ratio<dividend(R1::num,exp), dividend(R1::den,exp)>,
               ratio<divisor(R::den,R::num,exp), divisor(R::num,R::den,exp)>>`. -/
def ConversionRatio (R1 R : Rat) (exp : Int) : Rat :=
  ratioVal (dividend R1.num exp) (dividend (R1.den : Int) exp) *
  ratioVal (divisor (R.den : Int) R.num exp) (divisor R.num (R.den : Int) exp)

/-- The full conversion factor of `dimension_cast` (lines 106-108): the product
of the three per-axis `ConversionRatio`s for dimension vector `D`. -/
def conversion (B1 B : Base) (D : Dim) : Rat :=
  ConversionRatio B1.r1 B.r1 D.d1 *
  (ConversionRatio B1.r2 B.r2 D.d2 * ConversionRatio B1.r3 B.r3 D.d3)

/-- `class Unit<T, B>` with a floating-point representation `T`, modelled
exactly over `Rat` (lines 124-205). -/
structure Unit where
  base : Base
  value : Rat
deriving DecidableEq, Repr

/-- `class Unit<T, B>` with an integral representation `T` (lines 124-205). -/
structure UnitI where
  base : Base
  value : Int
deriving DecidableEq, Repr

/-- `dimension_cast<ToUnit>` (lines 100-111) for a floating-point target:
`ToUnit(static_cast<Y>(unit.value()) * conversion::num / conversion::den)`. -/
def dimension_cast (B : Base) (D : Dim) (u : Unit) : Unit :=
  let conv := conversion u.base B D
  ⟨B, u.value * (conv.num : Rat) / ((conv.den : Int) : Rat)⟩

/-- `unit_cast<ToUnit>` (lines 113-122): a `dimension_cast` whose dimension is
`AddType<B1::dim, B::dim>`, i.e. `Dim` `operator+` (defined in C++ only when
the two dimensions are equal). -/
def unit_cast (B : Base) (u : Unit) : Unit :=
  dimension_cast B (Dim.add u.base.dim B.dim) u

/-- `Unit::as<Q>()` (lines 158-159): `unit_cast<Q>(*this)`. -/
def Unit.as (u : Unit) (B : Base) : Unit := unit_cast B u

/-- `dimension_cast<ToUnit>` (lines 100-111) for an integral target: the value
arithmetic `value * conversion::num / conversion::den` is `int64_t`
multiplication followed by C++ truncated division. -/
def dimension_castI (B : Base) (D : Dim) (u : UnitI) : UnitI :=
  let conv := conversion u.base B D
  ⟨B, cppDiv (u.value * conv.num) (conv.den : Int)⟩

/-- `unit_cast<ToUnit>` (lines 113-122) for an integral target. -/
def unit_castI (B : Base) (u : UnitI) : UnitI :=
  dimension_castI B (Dim.add u.base.dim B.dim) u

/-- The error taxonomy entry for a rejected integral-to-integral conversion. -/
inductive UnitError where
  | LossyIntegerConversion
deriving DecidableEq, Repr

/-- The integral-from-integral converting constructor (lines 136-143): enabled
only when `IsMultiple<B1,B>` holds, in which case it stores
`unit_cast<Unit<T,B>>(rhs).value()`. The C++ `enable_if` rejection is modelled
as `Except.error LossyIntegerConversion`, following the spec's runtime-checked
reading. -/
def unitFromIntegral (B : Base) (u : UnitI) : Except UnitError UnitI :=
  if IsMultiple u.base B then Except.ok (unit_castI B u) else Except.error UnitError.LossyIntegerConversion

/-- The floating-point converting constructor (lines 147-153): always enabled,
stores `unit_cast<Unit<T,B>>(rhs).value()`. -/
def unitFromAny (B : Base) (u : Unit) : Unit := unit_cast B u

/-- `CommonRatio<R1,R2>` (lines 207-208): the period of
`std::common_type<duration<int,R1>, duration<int,R2>>`, which is
`ratio<gcd(R1::num, R2::num), lcm(R1::den, R2::den)>`. -/
def CommonRatio (rA rB : Rat) : Rat :=
  ratioVal ((Int.gcd rA.num rB.num : Nat) : Int) ((Nat.lcm rA.den rB.den : Nat) : Int)

/-- `CommonBase<D,B1,B2>` (lines 210-213). -/
def CommonBase (D : Dim) (B1 B2 : Base) : Base :=
  ⟨D, CommonRatio B1.r1 B2.r1, CommonRatio B1.r2 B2.r2, CommonRatio B1.r3 B2.r3⟩

/-- `operator+(Unit, Unit)` (lines 217-223): casts both operands to the common
base (with the `AddType` dimension, i.e. the operands' shared dimension) and
adds the raw values. -/
def addU (a b : Unit) : Unit :=
  let B := CommonBase (Dim.add a.base.dim b.base.dim) a.base b.base
  ⟨B, (unit_cast B a).value + (unit_cast B b).value⟩

/-- `operator-(Unit, Unit)` (lines 225-231). -/
def subU (a b : Unit) : Unit :=
  let B := CommonBase (Dim.add a.base.dim b.base.dim) a.base b.base
  ⟨B, (unit_cast B a).value - (unit_cast B b).value⟩

/-- `operator*(Unit, Unit)` (lines 233-239): the result base combines the
dimensions with `MulType` (component-wise sum); each operand is
`dimension_cast` with its own dimension (the default `D = B1::dim`). -/
def mulU (a b : Unit) : Unit :=
  let B := CommonBase (Dim.mul a.base.dim b.base.dim) a.base b.base
  ⟨B, (dimension_cast B a.base.dim a).value * (dimension_cast B b.base.dim b).value⟩

/-- `operator/(Unit, Unit)` (lines 241-247): the result base combines the
dimensions with `DivType` (component-wise difference). -/
def divU (a b : Unit) : Unit :=
  let B := CommonBase (Dim.div a.base.dim b.base.dim) a.base b.base
  ⟨B, (dimension_cast B a.base.dim a).value / (dimension_cast B b.base.dim b).value⟩

/-- `operator/(Unit<X,B>, Unit<Y,B>)` (lines 250-254): both operands share the
same base type `B`; returns the bare scalar `lhs.value() / rhs.value()`.
The shared base is a compile-time constraint, carried as a hypothesis. -/
def divSame (lhs rhs : Unit) : Rat := lhs.value / rhs.value

/-- `operator*(Unit, scalar)` (lines 259-264). -/
def mulScalar (lhs : Unit) (y : Rat) : Unit := ⟨lhs.base, lhs.value * y⟩

/-- `operator/(Unit, scalar)` (lines 273-278). -/
def divScalar (lhs : Unit) (y : Rat) : Unit := ⟨lhs.base, lhs.value / y⟩

/-- `Unit::operator/=` (lines 168-169): `value_ /= x`. -/
def divAssign (u : Unit) (x : Rat) : Unit := ⟨u.base, u.value / x⟩

/-- Replace the axis-1 ratio of a base. -/
def withR1 (B : Base) (r : Rat) : Base := ⟨B.dim, r, B.r2, B.r3⟩

/-- Replace the axis-2 ratio of a base. -/
def withR2 (B : Base) (r : Rat) : Base := ⟨B.dim, B.r1, r, B.r3⟩

/-- Replace the axis-3 ratio of a base. -/
def withR3 (B : Base) (r : Rat) : Base := ⟨B.dim, B.r1, B.r2, r⟩

/-- The base length scale (ratio 1/1, dimension (1,0,0)). -/
def baseLen : Base := ⟨⟨1, 0, 0⟩, 1, 1, 1⟩

/-- A centi length scale (axis-1 ratio 1/100, dimension (1,0,0)). -/
def centiLen : Base := ⟨⟨1, 0, 0⟩, mkRat 1 100, 1, 1⟩

/-- A length scale with axis-1 ratio 1/3 (the spec's concrete cast target). -/
def thirdLen : Base := ⟨⟨1, 0, 0⟩, mkRat 1 3, 1, 1⟩

/-- An inverse scale (dimension (-1,0,0)) with unit ratio. -/
def negBase1 : Base := ⟨⟨-1, 0, 0⟩, 1, 1, 1⟩

/-- An inverse scale (dimension (-1,0,0)) with axis-1 ratio 2. -/
def negBase2 : Base := ⟨⟨-1, 0, 0⟩, 2, 1, 1⟩

theorem ipowF_spec : ∀ (fuel : Nat) (b e r : Int), e.toNat < fuel →
    ipowF fuel b e r = r * b ^ e.toNat := by
  intro fuel
  induction fuel with
  | zero => intro b e r h; exact absurd h (Nat.not_lt_zero _)
  | succ n ih =>
    intro b e r h
    simp only [ipowF]
    by_cases he : e < 1
    · have h0 : e.toNat = 0 := by omega
      simp [he, h0]
    · rw [if_neg he, ih (b * b) (e / 2) _ (by omega)]
      by_cases hp : e % 2 = 0
      · rw [if_pos hp]
        have h2 : e.toNat = 2 * (e / 2).toNat := by omega
        rw [h2]; ring
      · rw [if_neg hp]
        have h2 : e.toNat = 2 * (e / 2).toNat + 1 := by omega
        rw [h2]; ring

theorem ipow_spec (b e r : Int) : ipow b e r = r * b ^ e.toNat :=
  ipowF_spec _ _ _ _ (Nat.lt_succ_self _)

theorem iabs_toNat (e : Int) : (iabs e).toNat = e.natAbs := by
  simp only [iabs]; split <;> omega

theorem dividend_ne (a e : Int) (h : e ≠ 0) : dividend a e = a ^ e.natAbs := by
  rw [dividend, if_neg h, ipow_spec, one_mul, iabs_toNat]

theorem divisor_pos (a b e : Int) (h : 0 < e) : divisor a b e = a ^ e.natAbs := by
  rw [divisor, if_neg (by omega), if_pos h, ipow_spec, one_mul, iabs_toNat]

theorem divisor_neg (a b e : Int) (h : e < 0) : divisor a b e = b ^ e.natAbs := by
  rw [divisor, if_neg (by omega), if_neg (by omega), ipow_spec, one_mul, iabs_toNat]

theorem ratioVal_num_den (r : Rat) (n : Nat) :
    ratioVal (r.num ^ n) ((r.den : Int) ^ n) = r ^ n := by
  rw [ratioVal]; push_cast; rw [← div_pow, Rat.num_div_den]

theorem ratioVal_den_num (r : Rat) (n : Nat) :
    ratioVal ((r.den : Int) ^ n) (r.num ^ n) = r⁻¹ ^ n := by
  rw [ratioVal]; push_cast
  rw [← div_pow]
  congr 1
  conv_rhs => rw [← Rat.num_div_den r, inv_div]

theorem ConversionRatio_zero (R1 R : Rat) : ConversionRatio R1 R 0 = 1 := by
  simp [ConversionRatio, dividend, divisor, ratioVal]

theorem ConversionRatio_pos (R1 R : Rat) (e : Int) (h : 0 < e) :
    ConversionRatio R1 R e = R1 ^ e.natAbs * R⁻¹ ^ e.natAbs := by
  rw [ConversionRatio, dividend_ne _ _ (by omega), dividend_ne _ _ (by omega),
    divisor_pos _ _ _ h, divisor_pos _ _ _ h, ratioVal_num_den, ratioVal_den_num]

theorem ConversionRatio_neg (R1 R : Rat) (e : Int) (h : e < 0) :
    ConversionRatio R1 R e = R1 ^ e.natAbs * R ^ e.natAbs := by
  rw [ConversionRatio, dividend_ne _ _ (by omega), dividend_ne _ _ (by omega),
    divisor_neg _ _ _ h, divisor_neg _ _ _ h, ratioVal_num_den, ratioVal_num_den]

theorem dimension_cast_value (B : Base) (D : Dim) (u : Unit) :
    dimension_cast B D u = ⟨B, u.value * conversion u.base B D⟩ := by
  rw [dimension_cast]
  congr 1
  push_cast
  rw [mul_div_assoc, Rat.num_div_den]

theorem ConversionRatio_one (R1 R : Rat) : ConversionRatio R1 R 1 = R1 * R⁻¹ := by
  rw [ConversionRatio_pos R1 R 1 (by omega)]; norm_num

theorem ConversionRatio_neg_one (R1 R : Rat) : ConversionRatio R1 R (-1) = R1 * R := by
  rw [ConversionRatio_neg R1 R (-1) (by omega)]; norm_num

theorem num_centi : (mkRat 1 100).num = 1 := rfl

theorem den_centi : (mkRat 1 100).den = 100 := rfl

theorem num_third : (mkRat 1 3).num = 1 := rfl

theorem den_third : (mkRat 1 3).den = 3 := rfl

theorem conv_neg2_self :
    conversion negBase2 negBase2 (Dim.add negBase2.dim negBase2.dim) = 4 := by
  norm_num [conversion, negBase2, Dim.add, ConversionRatio_neg_one, ConversionRatio_zero]

theorem conv_neg1_to_neg2 :
    conversion negBase1 negBase2 (Dim.add negBase1.dim negBase2.dim) = 2 := by
  norm_num [conversion, negBase1, negBase2, Dim.add, ConversionRatio_neg_one,
    ConversionRatio_zero]

theorem conv_neg2_to_neg1 :
    conversion negBase2 negBase1 (Dim.add negBase2.dim negBase1.dim) = 2 := by
  norm_num [conversion, negBase1, negBase2, Dim.add, ConversionRatio_neg_one,
    ConversionRatio_zero]

theorem conv_base_to_third :
    conversion baseLen thirdLen (Dim.add baseLen.dim thirdLen.dim) = 3 := by
  norm_num [conversion, baseLen, thirdLen, Dim.add, ConversionRatio_one,
    ConversionRatio_zero, Rat.mkRat_eq_div]

/-- C4: an axis whose exponent in the conversion dimension is 0 contributes the
identity ratio 1/1 to the conversion factor, whatever the source and target
ratios on that axis are; consequently replacing the ratios of a zero-exponent
axis (on either side) never alters the full conversion factor. -/
theorem zero_exponent_unity (B1 B : Base) (D : Dim) (r1 r : Rat) :
    ConversionRatio r1 r 0 = 1 ∧
    (D.d1 = 0 → conversion (withR1 B1 r1) (withR1 B r) D = conversion B1 B D) ∧
    (D.d2 = 0 → conversion (withR2 B1 r1) (withR2 B r) D = conversion B1 B D) ∧
    (D.d3 = 0 → conversion (withR3 B1 r1) (withR3 B r) D = conversion B1 B D) := by
  refine ⟨ConversionRatio_zero r1 r, ?_, ?_, ?_⟩ <;> intro h <;>
    simp [conversion, withR1, withR2, withR3, h, ConversionRatio_zero]

theorem zero_exponent_unity_witness :
    ConversionRatio 5 7 0 = 1 ∧
    conversion (withR1 centiLen 5) (withR1 baseLen 7) ⟨0, 0, 0⟩ =
      conversion centiLen baseLen ⟨0, 0, 0⟩ ∧
    conversion (withR2 centiLen 5) (withR2 baseLen 7) ⟨0, 0, 0⟩ =
      conversion centiLen baseLen ⟨0, 0, 0⟩ ∧
    conversion (withR3 centiLen 5) (withR3 baseLen 7) ⟨0, 0, 0⟩ =
      conversion centiLen baseLen ⟨0, 0, 0⟩ :=
  ⟨(zero_exponent_unity centiLen baseLen ⟨0, 0, 0⟩ 5 7).1,
   (zero_exponent_unity centiLen baseLen ⟨0, 0, 0⟩ 5 7).2.1 rfl,
   (zero_exponent_unity centiLen baseLen ⟨0, 0, 0⟩ 5 7).2.2.1 rfl,
   (zero_exponent_unity centiLen baseLen ⟨0, 0, 0⟩ 5 7).2.2.2 rfl⟩

theorem cppMod_eq_zero_iff (a b : Int) : cppMod a b = 0 ↔ b ∣ a := by
  rw [cppMod]
  exact Iff.symm Int.dvd_iff_tmod_eq_zero

theorem num_eq_mul_den (r : Rat) : (r.num : Rat) = r * (r.den : Rat) := by
  have hden : ((r.den : Rat)) ≠ 0 := Nat.cast_ne_zero.mpr (Rat.den_ne_zero r)
  have h := Rat.num_div_den r
  rw [div_eq_iff hden] at h
  exact h

/-- The per-axis content of `IsMultiple`: the C++ divisibility test on the
reduced numerators and denominators holds exactly when the source ratio is an
integer multiple of the target ratio. -/
theorem axis_multiple_iff (ra rb : Rat) :
    cppMod (ra.num * (rb.den : Int)) (rb.num * (ra.den : Int)) = 0 ↔
    ∃ k : Int, ra = (k : Rat) * rb := by
  rw [cppMod_eq_zero_iff]
  have h1 : ((ra.den : Rat)) ≠ 0 := Nat.cast_ne_zero.mpr (Rat.den_ne_zero ra)
  have h2 : ((rb.den : Rat)) ≠ 0 := Nat.cast_ne_zero.mpr (Rat.den_ne_zero rb)
  constructor
  · rintro ⟨c, hc⟩
    refine ⟨c, ?_⟩
    have hc' : (ra.num : Rat) * (rb.den : Rat) =
        (rb.num : Rat) * (ra.den : Rat) * (c : Rat) := by exact_mod_cast hc
    rw [← Rat.num_div_den ra, ← Rat.num_div_den rb]
    field_simp
    linear_combination hc'
  · rintro ⟨k, hk⟩
    refine ⟨k, ?_⟩
    have e1 : (ra.num : Rat) * (rb.den : Rat) =
        (k : Rat) * (rb.num : Rat) * (ra.den : Rat) := by
      linear_combination (rb.den : Rat) * num_eq_mul_den ra -
        ((k : Rat) * (ra.den : Rat)) * num_eq_mul_den rb +
        ((ra.den : Rat) * (rb.den : Rat)) * hk
    have e2 : ra.num * (rb.den : Int) = k * rb.num * (ra.den : Int) := by exact_mod_cast e1
    linear_combination e2

/-- C5: the integral-from-integral construction is permitted exactly when, on
every axis, the source ratio is an exact integer multiple of the target ratio
(the `IsMultiple` check), and when the check fails the construction is
rejected with `LossyIntegerConversion` instead of silently truncating. The
nonzero hypotheses restrict to scales for which the C++ check is a well-formed
constant expression (a zero target ratio would divide by zero in `%`). -/
theorem integral_construction_iff (u : UnitI) (B : Base)
    (h1 : B.r1 ≠ 0) (h2 : B.r2 ≠ 0) (h3 : B.r3 ≠ 0) :
    ((∃ v, unitFromIntegral B u = Except.ok v) ↔
      (∃ k : Int, u.base.r1 = (k : Rat) * B.r1) ∧
      (∃ k : Int, u.base.r2 = (k : Rat) * B.r2) ∧
      (∃ k : Int, u.base.r3 = (k : Rat) * B.r3)) ∧
    (¬ ((∃ k : Int, u.base.r1 = (k : Rat) * B.r1) ∧
        (∃ k : Int, u.base.r2 = (k : Rat) * B.r2) ∧
        (∃ k : Int, u.base.r3 = (k : Rat) * B.r3)) →
      unitFromIntegral B u = Except.error UnitError.LossyIntegerConversion) := by
  have hiff : IsMultiple u.base B = true ↔
      ((∃ k : Int, u.base.r1 = (k : Rat) * B.r1) ∧
       (∃ k : Int, u.base.r2 = (k : Rat) * B.r2) ∧
       (∃ k : Int, u.base.r3 = (k : Rat) * B.r3)) := by
    simp only [IsMultiple, Bool.and_eq_true, beq_iff_eq]
    rw [axis_multiple_iff, axis_multiple_iff, axis_multiple_iff]
    tauto
  constructor
  · constructor
    · rintro ⟨v, hv⟩
      rw [← hiff]
      by_contra hne
      have hfalse : IsMultiple u.base B = false := by
        cases h : IsMultiple u.base B
        · rfl
        · exact absurd h hne
      rw [unitFromIntegral, if_neg (by simp [hfalse])] at hv
      exact Except.noConfusion hv
    · intro hc
      refine ⟨unit_castI B u, ?_⟩
      rw [unitFromIntegral, if_pos (by simp [hiff.mpr hc])]
  · intro hnot
    have hfalse : IsMultiple u.base B = false := by
      cases h : IsMultiple u.base B
      · rfl
      · exact absurd (hiff.mp h) hnot
    rw [unitFromIntegral, if_neg (by simp [hfalse])]

theorem integral_construction_iff_witness :
    ((∃ v, unitFromIntegral centiLen ⟨baseLen, 7⟩ = Except.ok v) ↔
      (∃ k : Int, baseLen.r1 = (k : Rat) * centiLen.r1) ∧
      (∃ k : Int, baseLen.r2 = (k : Rat) * centiLen.r2) ∧
      (∃ k : Int, baseLen.r3 = (k : Rat) * centiLen.r3)) ∧
    (¬ ((∃ k : Int, baseLen.r1 = (k : Rat) * centiLen.r1) ∧
        (∃ k : Int, baseLen.r2 = (k : Rat) * centiLen.r2) ∧
        (∃ k : Int, baseLen.r3 = (k : Rat) * centiLen.r3)) →
      unitFromIntegral centiLen ⟨baseLen, 7⟩ =
        Except.error UnitError.LossyIntegerConversion) :=
  integral_construction_iff ⟨baseLen, 7⟩ centiLen
    (by norm_num [centiLen, Rat.mkRat_eq_div]) (by norm_num [centiLen])
    (by norm_num [centiLen])

theorem commonRatio_comm (rA rB : Rat) : CommonRatio rA rB = CommonRatio rB rA := by
  rw [CommonRatio, CommonRatio, Int.gcd_comm, Nat.lcm_comm]

theorem commonRatio_eq_div (rA rB : Rat) :
    CommonRatio rA rB =
      ((Int.gcd rA.num rB.num : Nat) : Rat) / ((Nat.lcm rA.den rB.den : Nat) : Rat) := by
  rw [CommonRatio, ratioVal]
  push_cast
  ring

theorem commonRatio_dvd_left (rA rB : Rat) :
    ∃ k : Int, rA = (k : Rat) * CommonRatio rA rB := by
  by_cases hg : Int.gcd rA.num rB.num = 0
  · have h0 : rA.num = 0 := (Int.gcd_eq_zero_iff.mp hg).1
    have hA : rA = 0 := Rat.num_eq_zero.mp h0
    exact ⟨0, by simp [hA]⟩
  · refine ⟨(rA.num / (Int.gcd rA.num rB.num : Int)) *
      ((Nat.lcm rA.den rB.den / rA.den : Nat) : Int), ?_⟩
    have hgdvd : ((Int.gcd rA.num rB.num : Nat) : Int) ∣ rA.num := Int.gcd_dvd_left
    have hLdvd : rA.den ∣ Nat.lcm rA.den rB.den := Nat.dvd_lcm_left _ _
    have hgne : (((Int.gcd rA.num rB.num : Nat)) : Rat) ≠ 0 := Nat.cast_ne_zero.mpr hg
    have hLne : (((Nat.lcm rA.den rB.den : Nat)) : Rat) ≠ 0 :=
      Nat.cast_ne_zero.mpr (Nat.lcm_ne_zero (Rat.den_ne_zero rA) (Rat.den_ne_zero rB))
    have hdne : ((rA.den : Rat)) ≠ 0 := Nat.cast_ne_zero.mpr (Rat.den_ne_zero rA)
    have hc1 : ((rA.num / (Int.gcd rA.num rB.num : Int) : Int) : Rat) =
        (rA.num : Rat) / ((Int.gcd rA.num rB.num : Nat) : Rat) := by
      rw [Int.cast_div_charZero hgdvd]
      push_cast
      ring
    have hc2 : ((Nat.lcm rA.den rB.den / rA.den : Nat) : Rat) =
        ((Nat.lcm rA.den rB.den : Nat) : Rat) / (rA.den : Rat) :=
      Nat.cast_div hLdvd hdne
    rw [commonRatio_eq_div, Int.cast_mul, hc1, Int.cast_natCast, hc2]
    conv_lhs => rw [← Rat.num_div_den rA]
    field_simp
    ring

theorem commonRatio_dvd_right (rA rB : Rat) :
    ∃ k : Int, rB = (k : Rat) * CommonRatio rA rB := by
  rw [commonRatio_comm]
  exact commonRatio_dvd_left rB rA

theorem commonRatio_greatest (rA rB q : Rat)
    (hA : ∃ a : Int, rA = (a : Rat) * q) (hB : ∃ b : Int, rB = (b : Rat) * q) :
    ∃ k : Int, CommonRatio rA rB = (k : Rat) * q := by
  obtain ⟨a, ha⟩ := hA
  obtain ⟨b, hb⟩ := hB
  by_cases hq : q = 0
  · subst hq
    have hA0 : rA = 0 := by simpa using ha
    have hB0 : rB = 0 := by simpa using hb
    refine ⟨0, ?_⟩
    rw [hA0, hB0, commonRatio_eq_div]
    norm_num
  · have hs : q.num ≠ 0 := fun h => hq (Rat.num_eq_zero.mp h)
    have eA : rA.num * (q.den : Int) = a * q.num * (rA.den : Int) := by
      have e1 : (rA.num : Rat) * (q.den : Rat) =
          (a : Rat) * (q.num : Rat) * (rA.den : Rat) := by
        linear_combination (q.den : Rat) * num_eq_mul_den rA -
          ((a : Rat) * (rA.den : Rat)) * num_eq_mul_den q +
          ((rA.den : Rat) * (q.den : Rat)) * ha
      exact_mod_cast e1
    have eB : rB.num * (q.den : Int) = b * q.num * (rB.den : Int) := by
      have e1 : (rB.num : Rat) * (q.den : Rat) =
          (b : Rat) * (q.num : Rat) * (rB.den : Rat) := by
        linear_combination (q.den : Rat) * num_eq_mul_den rB -
          ((b : Rat) * (rB.den : Rat)) * num_eq_mul_den q +
          ((rB.den : Rat) * (q.den : Rat)) * hb
      exact_mod_cast e1
    have hcopQ : IsCoprime q.num ((q.den : Int)) := by
      rw [Int.isCoprime_iff_gcd_eq_one]
      simpa [Int.gcd, Int.natAbs_ofNat] using q.reduced
    have hsdvdA : q.num ∣ rA.num := by
      have hd : q.num ∣ rA.num * (q.den : Int) := ⟨a * (rA.den : Int), by linear_combination eA⟩
      exact hcopQ.dvd_of_dvd_mul_right hd
    have hsdvdB : q.num ∣ rB.num := by
      have hd : q.num ∣ rB.num * (q.den : Int) := ⟨b * (rB.den : Int), by linear_combination eB⟩
      exact hcopQ.dvd_of_dvd_mul_right hd
    have hcopA : IsCoprime ((rA.den : Int)) rA.num := by
      rw [Int.isCoprime_iff_gcd_eq_one]
      simpa [Int.gcd, Int.natAbs_ofNat] using rA.reduced.symm
    have hcopB : IsCoprime ((rB.den : Int)) rB.num := by
      rw [Int.isCoprime_iff_gcd_eq_one]
      simpa [Int.gcd, Int.natAbs_ofNat] using rB.reduced.symm
    have hdAdvd : (rA.den : Int) ∣ (q.den : Int) := by
      have hd : (rA.den : Int) ∣ rA.num * (q.den : Int) :=
        ⟨a * q.num, by linear_combination eA⟩
      exact hcopA.dvd_of_dvd_mul_left hd
    have hdBdvd : (rB.den : Int) ∣ (q.den : Int) := by
      have hd : (rB.den : Int) ∣ rB.num * (q.den : Int) :=
        ⟨b * q.num, by linear_combination eB⟩
      exact hcopB.dvd_of_dvd_mul_left hd
    have hL : Nat.lcm rA.den rB.den ∣ q.den :=
      Nat.lcm_dvd (Int.natCast_dvd_natCast.mp hdAdvd) (Int.natCast_dvd_natCast.mp hdBdvd)
    have hg : q.num ∣ ((Int.gcd rA.num rB.num : Nat) : Int) := Int.dvd_gcd hsdvdA hsdvdB
    refine ⟨(((Int.gcd rA.num rB.num : Nat) : Int) / q.num) *
      ((q.den / Nat.lcm rA.den rB.den : Nat) : Int), ?_⟩
    have hqden : ((q.den : Rat)) ≠ 0 := Nat.cast_ne_zero.mpr (Rat.den_ne_zero q)
    have hLne : (((Nat.lcm rA.den rB.den : Nat)) : Rat) ≠ 0 :=
      Nat.cast_ne_zero.mpr (Nat.lcm_ne_zero (Rat.den_ne_zero rA) (Rat.den_ne_zero rB))
    have hsne : ((q.num : Rat)) ≠ 0 := Int.cast_ne_zero.mpr hs
    have hc1 : ((((Int.gcd rA.num rB.num : Nat) : Int) / q.num : Int) : Rat) =
        ((Int.gcd rA.num rB.num : Nat) : Rat) / (q.num : Rat) := by
      rw [Int.cast_div_charZero hg]
      push_cast
      ring
    have hc2 : ((q.den / Nat.lcm rA.den rB.den : Nat) : Rat) =
        (q.den : Rat) / ((Nat.lcm rA.den rB.den : Nat) : Rat) :=
      Nat.cast_div hL hLne
    rw [commonRatio_eq_div, Int.cast_mul, hc1, Int.cast_natCast, hc2]
    field_simp
    linear_combination ((Int.gcd rA.num rB.num : Nat) : Rat) *
      ((Nat.lcm rA.den rB.den : Nat) : Rat) * num_eq_mul_den q

/-- C7: adding 100 in the centi length scale (ratio 1/100) to 1 in the base
length scale (ratio 1/1) yields 200 in the centi scale; in general the common
result scale of the binary operators is, per axis, `CommonRatio`, which both
operand ratios are exact integer multiples of, and which is itself an integer
multiple of every ratio with that property (i.e. it is the canonical common
refinement, the coarsest scale in which both operands are exactly
expressible). -/
theorem common_scale_resolution (rA rB : Rat) :
    addU ⟨centiLen, 100⟩ ⟨baseLen, 1⟩ = ⟨centiLen, 200⟩ ∧
    (∃ k : Int, rA = (k : Rat) * CommonRatio rA rB) ∧
    (∃ k : Int, rB = (k : Rat) * CommonRatio rA rB) ∧
    (∀ q : Rat, (∃ k : Int, rA = (k : Rat) * q) → (∃ k : Int, rB = (k : Rat) * q) →
      ∃ k : Int, CommonRatio rA rB = (k : Rat) * q) := by
  refine ⟨?_, commonRatio_dvd_left rA rB, commonRatio_dvd_right rA rB,
    fun q hA hB => commonRatio_greatest rA rB q hA hB⟩
  simp only [addU, unit_cast, dimension_cast_value]
  norm_num [CommonBase, CommonRatio, Dim.add, centiLen, baseLen, conversion,
    ConversionRatio_one, ConversionRatio_zero, ratioVal, num_centi, den_centi,
    Rat.num_one, Rat.den_one, Rat.mkRat_eq_div, Unit.mk.injEq, Base.mk.injEq]

theorem common_scale_resolution_witness :
    addU ⟨centiLen, 100⟩ ⟨baseLen, 1⟩ = ⟨centiLen, 200⟩ ∧
    (∃ k : Int, CommonRatio (mkRat 1 100) 1 = (k : Rat) * mkRat 1 200) :=
  ⟨(common_scale_resolution (mkRat 1 100) 1).1,
   (common_scale_resolution (mkRat 1 100) 1).2.2.2 (mkRat 1 200)
     ⟨2, by norm_num [Rat.mkRat_eq_div]⟩ ⟨200, by norm_num [Rat.mkRat_eq_div]⟩⟩

/-- C8: the product of two quantities has the component-wise sum of the operand
dimensions, and the quotient the component-wise difference, for every
combination of exponents (negative and zero included). -/
theorem dimension_closure (a b : Unit) :
    (mulU a b).base.dim =
      ⟨a.base.dim.d1 + b.base.dim.d1, a.base.dim.d2 + b.base.dim.d2,
       a.base.dim.d3 + b.base.dim.d3⟩ ∧
    (divU a b).base.dim =
      ⟨a.base.dim.d1 - b.base.dim.d1, a.base.dim.d2 - b.base.dim.d2,
       a.base.dim.d3 - b.base.dim.d3⟩ :=
  ⟨rfl, rfl⟩

/-- C9: dividing two quantities of the identical scale type returns the bare
scalar `lhs.value() / rhs.value()` with no conversion step; in particular a
100 cm length over a 50 cm length is the scalar 2. -/
theorem same_scale_div (lhs rhs : Unit) (h : lhs.base = rhs.base) :
    divSame lhs rhs = lhs.value / rhs.value ∧
    divSame ⟨centiLen, 100⟩ ⟨centiLen, 50⟩ = 2 :=
  ⟨rfl, by norm_num [divSame]⟩

theorem same_scale_div_witness :
    divSame ⟨centiLen, 100⟩ ⟨centiLen, 50⟩ =
      (⟨centiLen, (100 : Rat)⟩ : Unit).value / (⟨centiLen, (50 : Rat)⟩ : Unit).value ∧
    divSame ⟨centiLen, 100⟩ ⟨centiLen, 50⟩ = 2 :=
  same_scale_div ⟨centiLen, 100⟩ ⟨centiLen, 50⟩ rfl

/-- C10: none of the division operations guards against a zero divisor: the
different-scale quotient of quantities, the identical-scale quotient, division
by a bare scalar and compound assignment `/=` all perform the raw division of
the underlying representation (which in this total embedding of `Rat` yields
0) with no check, error value or rejection. -/
theorem division_unguarded :
    divSame ⟨centiLen, 100⟩ ⟨centiLen, 0⟩ = (100 : Rat) / 0 ∧
    (divU ⟨centiLen, 100⟩ ⟨baseLen, 0⟩).value = (100 : Rat) / 0 ∧
    divScalar ⟨centiLen, 100⟩ 0 = ⟨centiLen, (100 : Rat) / 0⟩ ∧
    divAssign ⟨centiLen, 100⟩ 0 = ⟨centiLen, (100 : Rat) / 0⟩ ∧
    (100 : Rat) / 0 = 0 := by
  refine ⟨rfl, ?_, rfl, rfl, by norm_num⟩
  simp only [divU, dimension_cast_value]
  norm_num [conversion, CommonBase, CommonRatio, Dim.div, centiLen, baseLen,
    ConversionRatio_one, ConversionRatio_zero, ratioVal, num_centi, den_centi,
    Rat.num_one, Rat.den_one, Rat.mkRat_eq_div]

/-- C1 (code evaluation at the failing input): for a negative axis exponent the
code's axis contribution is NOT the inverted ratio raised to `|d|`. With source
ratio 3600/1, target ratio 1/1 and exponent -1 the claim requires the factor
1/3600, but `ConversionRatio` leaves the source side uninverted (`dividend`
ignores the sign of `exp`) and produces 3600. -/
theorem conversion_ratio_negative_exponent :
    ConversionRatio 3600 1 (-1) = 3600 ∧ ConversionRatio 3600 1 (-1) ≠ 1 / 3600 := by
  constructor
  · rw [ConversionRatio_neg_one]; norm_num
  · rw [ConversionRatio_neg_one]; norm_num

/-- C2 (code evaluation at the failing input): converting a quantity to its own
scale is not a no-op once an axis has a negative exponent and a non-unit
ratio: with dimension (-1,0,0) and ratio 2/1, the value 1 comes back as 4. -/
theorem identity_cast_not_noop :
    Unit.as ⟨negBase2, 1⟩ negBase2 = ⟨negBase2, 4⟩ ∧ (4 : Rat) ≠ 1 := by
  constructor
  · simp only [Unit.as, unit_cast, dimension_cast_value, conv_neg2_self, Unit.mk.injEq]
    norm_num
  · norm_num

/-- C3 (code evaluation at the failing input): the two-step round trip through
a compatible scale does not reproduce the value for negative exponents: with
dimension (-1,0,0), casting 1 from ratio 1/1 to ratio 2/1 and back yields 4. -/
theorem round_trip_fails :
    Unit.as (Unit.as ⟨negBase1, 1⟩ negBase2) negBase1 = ⟨negBase1, 4⟩ ∧
    (4 : Rat) ≠ 1 := by
  constructor
  · have h1 : Unit.as ⟨negBase1, 1⟩ negBase2 = ⟨negBase2, 2⟩ := by
      simp only [Unit.as, unit_cast, dimension_cast_value, conv_neg1_to_neg2, Unit.mk.injEq]
      norm_num
    rw [h1]
    simp only [Unit.as, unit_cast, dimension_cast_value, conv_neg2_to_neg1, Unit.mk.injEq]
    norm_num
  · norm_num

/-- C6 (counterexample): casting the integral quantity 3 from the scale with
ratio 1/1 to the scale with ratio 1/3 is NOT rejected: the `IsMultiple` check
holds in this direction (1/1 is three times 1/3), so the integral-from-integral
constructor is enabled and yields 9. -/
theorem lossy_direction_counterexample :
    unitFromIntegral thirdLen ⟨baseLen, 3⟩ = Except.ok ⟨thirdLen, 9⟩ ∧
    unitFromIntegral thirdLen ⟨baseLen, 3⟩ ≠
      Except.error UnitError.LossyIntegerConversion := by
  have hok : unitFromIntegral thirdLen ⟨baseLen, 3⟩ = Except.ok ⟨thirdLen, 9⟩ := by
    simp only [unitFromIntegral, unit_castI, dimension_castI, conv_base_to_third]
    rfl
  refine ⟨hok, ?_⟩
  rw [hok]
  exact fun h => Except.noConfusion h

/-- C6 (amended): casting the integral quantity 3 from ratio 1/1 to ratio 1/3
is permitted and yields 9, exactly as the floating-point cast does; it is the
reverse direction, integral 3 from ratio 1/3 to ratio 1/1, that fails the
`IsMultiple` check and is rejected (`LossyIntegerConversion`). -/
theorem lossy_direction_amended :
    unitFromIntegral thirdLen ⟨baseLen, 3⟩ = Except.ok ⟨thirdLen, 9⟩ ∧
    unitFromAny thirdLen ⟨baseLen, 3⟩ = ⟨thirdLen, 9⟩ ∧
    unitFromIntegral baseLen ⟨thirdLen, 3⟩ =
      Except.error UnitError.LossyIntegerConversion := by
  refine ⟨?_, ?_, rfl⟩
  · simp only [unitFromIntegral, unit_castI, dimension_castI, conv_base_to_third]
    rfl
  · simp only [unitFromAny, unit_cast, dimension_cast_value, conv_base_to_third,
      Unit.mk.injEq]
    norm_num

end Nful
